import Mathlib

/-!
# pete-woods/ex: release handler, mongofixture names, system supervisor

A shallow embedding of three parts of the repository:

* `testing/mongofixture/mongofixture.go`: `randomSuffix`, `truncate` and the
  database name `Setup` computes (strings are byte sequences, as in Go);
* `releases/release/handler.go`: `Handler`, as a function from the handler
  configuration and the gin context to the ordered list of calls it makes on
  its collaborators and on the response writer;
* the `system` supervisor (`Run`, the metrics loop, `Cleanup`), whose
  implementation file is not part of the sources at hand; only its test
  `system/system_test.go` is. It is modelled from the written specification.
-/

namespace Ex

/-! ## Go errors and `errors.Is` -/

/-- A Go error value: a leaf error (identified by `id`, as a package-level
sentinel made by `errors.New` is identified by its address) or an error
wrapping another one (`fmt.Errorf("...: %w", inner)`). The `nil` error is
`none : Option GoError`. -/
inductive GoError where
  | leaf (id : String) : GoError
  | wrap (msg : String) (inner : GoError) : GoError
  deriving DecidableEq, Repr

/-- The unwrapping loop of `errors.Is` for a non-nil `err` and non-nil
`target`: compare, then unwrap and repeat. -/
def GoError.is : GoError → GoError → Bool
  | .leaf i, target => decide (GoError.leaf i = target)
  | .wrap m inner, target => decide (GoError.wrap m inner = target) || inner.is target

/-- Go's `errors.Is(err, target)`: when either side is nil the answer is
`err == target`; otherwise the unwrapping loop. -/
def errorsIs (err target : Option GoError) : Bool :=
  match err, target with
  | none, none => true
  | none, some _ => false
  | some _, none => false
  | some e, some t => e.is t

/-! ## `testing/mongofixture` -/

namespace mongofixture

/-- One byte. -/
abbrev Byte := Fin 256

/-- A Go string: a sequence of bytes; `len(s)` is `s.length`. -/
abbrev GoString := List Byte

/-- The bytes of an ASCII string literal of the source. -/
def lit (s : String) : GoString := s.toList.map (fun c => (Fin.ofNat c.toNat : Fin 256))

/-- The table `"0123456789abcdef"` of `encoding/hex`. -/
def hextable : GoString := lit "0123456789abcdef"

/-- The function `hex.EncodeToString`: every byte `v` gives `hextable[v>>4]`,
`hextable[v&0x0f]`. -/
def hexEncodeToString : List Byte → GoString
  | [] => []
  | v :: rest =>
    hextable.getD (v.val / 16) 0 :: hextable.getD (v.val % 16) 0 :: hexEncodeToString rest

/-- The function `randomSuffix`. `rnd` is what `rand.Read` did with the three
byte buffer: `none` when it returned an error, `some (a, b, c)` when it
filled the buffer with `a`, `b`, `c`. -/
def randomSuffix (rnd : Option (Byte × Byte × Byte)) : GoString :=
  match rnd with
  | none => lit "not-random--i-hope-thats-ok"
  | some (a, b, c) => hexEncodeToString [a, b, c]

/-- The call `strings.ReplaceAll(s, "/", "_")`: every byte `/` becomes `_`. -/
def replaceSlash (s : GoString) : GoString :=
  s.map (fun b => if b = 47 then 95 else b)

/-- The call `fmt.Sprintf("%s-%s", a, b)`. -/
def sprintfDash (a b : GoString) : GoString := a ++ lit "-" ++ b

/-- The slice expression `s[:hi]`: `none` stands for the run-time panic Go
raises when `hi > len(s)`. -/
def sliceTo (s : GoString) (hi : Nat) : Option GoString :=
  if hi ≤ s.length then some (s.take hi) else none

/-- The function `truncate`. -/
def truncate (s : GoString) : Option GoString :=
  if s.length ≥ 64 then sliceTo s 63 else some s

/-- The database name of `Setup` (lines 47-48): the formatted name and then
`truncate`. `testName` is `t.Name()`. -/
def setupName (rnd : Option (Byte × Byte × Byte)) (testName : GoString) : Option GoString :=
  truncate (sprintfDash (randomSuffix rnd) (replaceSlash testName))

end mongofixture

/-! ## `releases/release` -/

namespace release

/-- The type `Requirements`. Its declaration is not in `handler.go`; the
handler reads and writes the field `Version` only, the other fields are
`rest`. -/
structure Requirements (ρ : Type) where
  Version : String
  rest : ρ
  deriving DecidableEq, Repr

/-- The methods of `*List` the handler calls (the source type is `List`):
`Latest()`, `LatestFor(releaseType)` and `Lookup(ctx, req)`, which returns
the pair `(rel, err)`. -/
structure ReleaseList (κ ρ R : Type) where
  Latest : String
  LatestFor : String → String
  Lookup : κ → Requirements ρ → R × Option GoError

/-- The interface `releaseTypeResolver`. -/
structure releaseTypeResolver (κ : Type) where
  ReleaseType : κ → String

/-- The struct `HandlerConfig`; a nil `Resolver` is `none`. -/
structure HandlerConfig (κ ρ R : Type) where
  List : ReleaseList κ ρ R
  Resolver : Option (releaseTypeResolver κ)

/-- What the handler uses of `*gin.Context`: the request context and the
outcome of `c.BindJSON(&req)`. -/
structure GinContext (κ ρ : Type) where
  ctx : κ
  BindJSON : Except GoError (Requirements ρ)

/-- A JSON response body: `gin.H{"status": msg}` or the release. -/
inductive Body (R : Type) where
  | status (msg : String) : Body R
  | rel (r : R) : Body R
  deriving DecidableEq, Repr

/-- One call the handler makes on a collaborator or on the response. -/
inductive Call (ρ R : Type) where
  | AbortWithStatus (code : Nat) : Call ρ R
  | ReleaseType : Call ρ R
  | AddField (key value : String) : Call ρ R
  | Latest : Call ρ R
  | LatestFor (releaseType : String) : Call ρ R
  | Lookup (req : Requirements ρ) : Call ρ R
  | JSON (code : Nat) (body : Body R) : Call ρ R
  deriving DecidableEq, Repr

def StatusBadRequest : Nat := 400
def StatusNotFound : Nat := 404
def StatusInternalServerError : Nat := 500
def StatusOK : Nat := 200

/-- Lines 42-50 of `Handler`: the version is resolved when the request leaves
it empty. Returns the requirements to look up and the calls made. -/
def resolveVersion {κ ρ R : Type} (cfg : HandlerConfig κ ρ R) (ctx : κ)
    (req : Requirements ρ) : Requirements ρ × List (Call ρ R) :=
  if req.Version = "" then
    match cfg.Resolver with
    | none => ({ req with Version := cfg.List.Latest }, [Call.Latest])
    | some r =>
      let releaseType := r.ReleaseType ctx
      ({ req with Version := cfg.List.LatestFor releaseType },
        [Call.ReleaseType, Call.AddField "release_type" releaseType,
          Call.LatestFor releaseType])
  else (req, [])

/-- Lines 54-61 of `Handler`: the switch on the result of `Lookup`. -/
def respond {ρ R : Type} (ErrNotFound : GoError) (rel : R) (err : Option GoError) : Call ρ R :=
  if errorsIs err (some ErrNotFound) then
    Call.JSON StatusNotFound (Body.status "Resource not found")
  else if err ≠ none then
    Call.JSON StatusInternalServerError (Body.status "An internal error has occurred")
  else
    Call.JSON StatusOK (Body.rel rel)

/-- The function `Handler`: the calls the returned closure makes, in order.
`Validate` is `Requirements.Validate` and `ErrNotFound` the sentinel of the
package, both declared outside `handler.go`. -/
def Handler {κ ρ R : Type} (Validate : Requirements ρ → Option GoError)
    (ErrNotFound : GoError) (cfg : HandlerConfig κ ρ R) (c : GinContext κ ρ) :
    List (Call ρ R) :=
  match c.BindJSON with
  | .error _ => [Call.AbortWithStatus StatusBadRequest]
  | .ok req =>
    match Validate req with
    | some _ => [Call.AbortWithStatus StatusBadRequest]
    | none =>
      let resolved := resolveVersion cfg c.ctx req
      let found := cfg.List.Lookup c.ctx resolved.1
      resolved.2 ++ [Call.Lookup resolved.1, respond ErrNotFound found.1 found.2]

/-- The status codes written to the response by a sequence of calls. -/
def statuses {ρ R : Type} : List (Call ρ R) → List Nat
  | [] => []
  | Call.AbortWithStatus code :: rest => code :: statuses rest
  | Call.JSON code _ :: rest => code :: statuses rest
  | _ :: rest => statuses rest

/-- Whether a call is a call of `List.Lookup`. -/
def Call.isLookup {ρ R : Type} : Call ρ R → Bool
  | Call.Lookup _ => true
  | _ => false

/-- Whether a call is a call of `Resolver.ReleaseType`. -/
def Call.isReleaseType {ρ R : Type} : Call ρ R → Bool
  | Call.ReleaseType => true
  | _ => false

/-- The calls that write the response: `c.AbortWithStatus` and `c.JSON`. -/
def responses {ρ R : Type} : List (Call ρ R) → List (Call ρ R)
  | [] => []
  | Call.AbortWithStatus code :: rest => Call.AbortWithStatus code :: responses rest
  | Call.JSON code body :: rest => Call.JSON code body :: responses rest
  | _ :: rest => responses rest

/-- The calls that go to the `Resolver` or to the `List`. -/
def collaboratorCalls {ρ R : Type} : List (Call ρ R) → List (Call ρ R)
  | [] => []
  | Call.AbortWithStatus _ :: rest => collaboratorCalls rest
  | Call.JSON _ _ :: rest => collaboratorCalls rest
  | Call.AddField _ _ :: rest => collaboratorCalls rest
  | c :: rest => c :: collaboratorCalls rest

/-- A sentinel standing for the package's `ErrNotFound`, for the examples. -/
def exampleErrNotFound : GoError := GoError.leaf "release: not found"

/-- An example list: version `1.2.3` is known, every other lookup answers an
error wrapping the not-found sentinel, except version `boom`, whose lookup
fails otherwise. -/
def exampleList : ReleaseList Unit Nat String where
  Latest := "1.2.3"
  LatestFor := fun releaseType => if releaseType = "canary" then "2.0.0" else "1.2.3"
  Lookup := fun _ q =>
    if q.Version = "1.2.3" then ("agent-1.2.3", none)
    else if q.Version = "boom" then ("", some (GoError.leaf "connection refused"))
    else ("", some (GoError.wrap "lookup" exampleErrNotFound))

/-- An example `Validate`: the remaining field must not be zero. -/
def exampleValidate (req : Requirements Nat) : Option GoError :=
  if req.rest = 0 then some (GoError.leaf "invalid requirements") else none

/-- An example request that bound to the given version. -/
def exampleContext (version : String) : GinContext Unit Nat where
  ctx := ()
  BindJSON := .ok { Version := version, rest := 7 }

end release

/-! ## `system`

The implementation file of the package is not among the sources; its test
`system/system_test.go` is. The definitions below follow the written
specification (sections 3, 4.1-4.3, 4.6, 4.7 and 8) and the test. -/

namespace system

/-- The sentinel `termination.ErrTerminated` the test's termination hook
returns (line 30). -/
def ErrTerminated : GoError := GoError.leaf "terminated"

/-- One recorded emission, `fakemetrics.MetricCall` of the test (lines
62-90): kind, name, value, tags, rate. A gauge carries its value unchanged
(integers stand for `float64`); the value of a timer is a wall-clock duration,
which is not tracked: `none`. -/
structure MetricCall where
  Metric : String
  Name : String
  Value : Option Int
  Tags : List String
  Rate : Nat
  deriving DecidableEq, Repr

/-- A Go `map[string]α`: its entries, in the order one iteration visits
them, with no key twice. -/
structure GoMap (α : Type) where
  entries : List (String × α)
  nodup : (entries.map Prod.fst).Nodup

/-- The keys of a map. -/
def GoMap.keys {α : Type} (m : GoMap α) : List String := m.entries.map Prod.fst

/-- The index expression `m[k]`, with `zero` the zero value of an absent key. -/
def GoMap.index {α : Type} (m : GoMap α) (k : String) (zero : α) : α :=
  (m.entries.lookup k).getD zero

/-- Modelled from the spec: the capability contract `MetricProducer` (section
3), with the methods the test's mock implements (lines 103-122):
`MetricName()`, and in `poll` what `Gauges(ctx)` and `Tags(ctx)` return in a
tick, `some (gauges, tags)`, or `none` when the access to the producer
failed (section 4.3). -/
structure MetricProducer where
  MetricName : String
  poll : Option (GoMap Int × GoMap (List String))

/-- Modelled from the spec: the capability contract `ServiceTask` (sections 2
and 3): a unit of work that returns an outcome, success or failure.
`failure` is what the task returns when it returns: `some e` for the
failure `e`, `none` for no error (the service of the test, lines 38-44,
returns nil once its context is canceled). -/
structure ServiceTask where
  failure : Option GoError
  deriving DecidableEq, Repr

/-- Modelled from the spec: the capability contract `HealthProbe` (sections 3
and 4.5): a name and two optional checks, stored and never called by the
supervisor. -/
structure HealthProbe where
  name : String
  ready : Option (Unit → Option GoError)
  live : Option (Unit → Option GoError)

/-- Modelled from the spec: the capability contract `CleanupTask` (section
3): a teardown action, which may change the state `σ` of the process and
returns nil or a failure. -/
abbrev CleanupTask (σ : Type) := σ → Option GoError × σ

/-- Modelled from the spec: the type `System`, declared in the package's
implementation file, not among the sources: the registry of the supervisor
(sections 3 and 4.1), four ordered sequences. -/
structure System (σ : Type) where
  services : List ServiceTask
  healthChecks : List HealthProbe
  metrics : List MetricProducer
  cleanups : List (CleanupTask σ)

/-- Modelled from the spec: `New()`, the empty registry. -/
def New (σ : Type) : System σ := ⟨[], [], [], []⟩

/-- Modelled from the spec: `AddService` appends (section 4.1). -/
def System.AddService {σ : Type} (sys : System σ) (task : ServiceTask) : System σ :=
  { sys with services := sys.services ++ [task] }

/-- Modelled from the spec: `AddHealthCheck` appends (section 4.1). -/
def System.AddHealthCheck {σ : Type} (sys : System σ) (probe : HealthProbe) : System σ :=
  { sys with healthChecks := sys.healthChecks ++ [probe] }

/-- Modelled from the spec: `AddMetrics` appends (section 4.1). -/
def System.AddMetrics {σ : Type} (sys : System σ) (producer : MetricProducer) : System σ :=
  { sys with metrics := sys.metrics ++ [producer] }

/-- Modelled from the spec: `AddCleanup` appends (section 4.1). -/
def System.AddCleanup {σ : Type} (sys : System σ) (task : CleanupTask σ) : System σ :=
  { sys with cleanups := sys.cleanups ++ [task] }

/-! ### The metrics loop (section 4.3) -/

/-- Modelled from the spec: the gauge emitted for one key of a producer's
gauges map (section 4.3, step 2): named `gauge.<producerName>.<key>`, with
the gauge value, the tags map's entry for the key (empty when absent) and
rate 1. -/
def gaugeCall (producerName : String) (tags : GoMap (List String)) (kv : String × Int) :
    MetricCall :=
  { Metric := "gauge"
    Name := "gauge." ++ producerName ++ "." ++ kv.1
    Value := some kv.2
    Tags := tags.index kv.1 []
    Rate := 1 }

/-- Modelled from the spec: the timer that ends a tick (section 4.3, step 3). -/
def workerLoopCall (failed : Bool) : MetricCall :=
  { Metric := "timer"
    Name := "worker_loop"
    Value := none
    Tags := ["loop_name:metric-loop", if failed then "result:failure" else "result:success"]
    Rate := 1 }

/-- Modelled from the spec: the state of one tick: what the metrics sink has
received so far and whether a producer access has failed. -/
structure TickState where
  sink : List MetricCall
  failed : Bool
  deriving DecidableEq, Repr

/-- Modelled from the spec: the inner loop of a tick over the entries of one
gauges map, one gauge emission per key. -/
def emitGauges (producerName : String) (tags : GoMap (List String)) :
    List (String × Int) → List MetricCall → List MetricCall
  | [], sink => sink
  | kv :: rest, sink => emitGauges producerName tags rest (sink ++ [gaugeCall producerName tags kv])

/-- Modelled from the spec: one producer in a tick (section 4.3, steps 1 and
2): its two maps are fetched and its gauges emitted; a failed access marks
the tick failed and leaves the other producers alone. -/
def pollProducer (st : TickState) (p : MetricProducer) : TickState :=
  match p.poll with
  | some (gauges, tags) =>
    { st with sink := emitGauges p.MetricName tags gauges.entries st.sink }
  | none => { st with failed := true }

/-- Modelled from the spec: the outer loop of a tick, over the producers in
registration order. -/
def pollProducers : List MetricProducer → TickState → TickState
  | [], st => st
  | p :: rest, st => pollProducers rest (pollProducer st p)

/-- Modelled from the spec: one tick of the metrics loop, whose code is in the
package's implementation file, not among the sources (section 4.3): every
producer is polled and then the `worker_loop` timer emitted. The result is
the metrics sink after the tick. -/
def metricsTick (producers : List MetricProducer) (sink : List MetricCall) : List MetricCall :=
  let st := pollProducers producers { sink := sink, failed := false }
  st.sink ++ [workerLoopCall st.failed]

/-! ### `Run` (section 4.6) -/

/-- Modelled from the spec: what can happen while `Run` blocks and while the
activities it started wind down (section 5: the suspension points of the
services, the metrics loop and the watcher). -/
inductive Event where
  /-- The metrics loop's interval elapses: a tick starts and polls the
  producers. -/
  | tick : Event
  /-- The tick in flight sends its next emission to the metrics sink. -/
  | emits : Event
  /-- The service with this index returns on its own. -/
  | serviceReturns (i : Nat) : Event
  /-- The termination watcher observes the termination condition. -/
  | terminationFires : Event
  deriving DecidableEq, Repr

/-- Modelled from the spec: the state machine of `Run` (section 4.6):
`Running`, then `Terminated` or `Failed`, or `Finished` when a service
returned without error (section 4.2: the first task to return, success or
failure, cancels the shared lifetime; section 4.6, step 5: no error). -/
inductive Phase where
  | Running : Phase
  | Terminated : Phase
  | Failed (e : GoError) : Phase
  | Finished : Phase
  deriving DecidableEq, Repr

/-- Modelled from the spec: the state of a run: the phase, what the metrics
sink has received, the emissions of the tick in flight that are still to be
sent, and whether the metrics loop has ticked. -/
structure RunState where
  phase : Phase
  sink : List MetricCall
  pending : List MetricCall
  ticked : Bool
  deriving DecidableEq, Repr

/-- Modelled from the spec: whether an event ends the race on this system
(sections 4.2 and 4.6): the termination signal, or the return of a registered
service, with or without a failure. -/
def Event.triggers {σ : Type} (sys : System σ) : Event → Bool
  | Event.tick => false
  | Event.emits => false
  | Event.serviceReturns i => (sys.services.get? i).isSome
  | Event.terminationFires => true

/-- Modelled from the spec: one event of a run (sections 4.2, 4.3, 4.6).
While running, a tick polls every producer (section 4.3, step 1; with a zero
interval the loop ticks once and does not repeat, and no tick starts while
one is in flight); the emissions of the tick are then sent one by one
(steps 2 and 3), also after the race is over, while the loop winds down. The
first service to return ends the race, `Failed` with its failure or
`Finished` without one, and the termination signal ends it `Terminated`.
Once the run has left `Running` the shared lifetime is canceled: no tick
starts, and later returns and signals are not the triggering cause. -/
def step {σ : Type} (sys : System σ) (pollInterval : Nat) (st : RunState) (ev : Event) :
    RunState :=
  match ev with
  | Event.emits =>
    match st.pending with
    | [] => st
    | call :: rest => { st with sink := st.sink ++ [call], pending := rest }
  | Event.tick =>
    match st.phase with
    | Phase.Running =>
      if st.pending ≠ [] ∨ (pollInterval = 0 ∧ st.ticked = true) then st
      else { st with pending := metricsTick sys.metrics [], ticked := true }
    | _ => st
  | Event.serviceReturns i =>
    match st.phase with
    | Phase.Running =>
      match sys.services.get? i with
      | some task =>
        match task.failure with
        | some e => { st with phase := Phase.Failed e }
        | none => { st with phase := Phase.Finished }
      | none => st
    | _ => st
  | Event.terminationFires =>
    match st.phase with
    | Phase.Running => { st with phase := Phase.Terminated }
    | _ => st

/-- Modelled from the spec: the events of a schedule, one after the other. -/
def runEvents {σ : Type} (sys : System σ) (pollInterval : Nat) :
    List Event → RunState → RunState
  | [], st => st
  | ev :: rest, st => runEvents sys pollInterval rest (step sys pollInterval st ev)

/-- Modelled from the spec: the timer `system.run` (section 4.6, step 4),
with rate 1. -/
def systemRunCall (resultTag : String) : MetricCall :=
  { Metric := "timer", Name := "system.run", Value := none, Tags := [resultTag], Rate := 1 }

/-- Modelled from the spec: what `Run` returns, and the metrics sink when it
returns. -/
structure RunResult where
  err : Option GoError
  sink : List MetricCall
  deriving DecidableEq, Repr

/-- Modelled from the spec: the state in which `Run` starts. -/
def RunState.start : RunState :=
  { phase := Phase.Running, sink := [], pending := [], ticked := false }

/-- Modelled from the spec: `Run(ctx, pollInterval)`, whose code is in the
package's implementation file, not among the sources (section 4.6), on a
schedule of events. `none`: the schedule ends with the run still blocked.
When the race is over the others wind down (step 3), so a tick in flight
sends what it has left, and then the timer `system.run` is emitted (step 4):
the test expects the gauges and `worker_loop` before `system.run` although
its termination hook may return as soon as the producer has been polled
(lines 28-31, 62-91, 103-122). Step 5: a service failure is returned as it
is, with the timer tagged `result:failure` (section 8, scenario C); a
termination returns the sentinel, with the timer tagged `result:success`,
the tag the test asserts (lines 84-90); a service that returned without
error gives no error, tagged `result:success`. -/
def Run {σ : Type} (sys : System σ) (pollInterval : Nat) (schedule : List Event) :
    Option RunResult :=
  let st := runEvents sys pollInterval schedule RunState.start
  match st.phase with
  | Phase.Running => none
  | Phase.Terminated =>
    some { err := some ErrTerminated
           sink := st.sink ++ st.pending ++ [systemRunCall "result:success"] }
  | Phase.Failed e =>
    some { err := some e, sink := st.sink ++ st.pending ++ [systemRunCall "result:failure"] }
  | Phase.Finished =>
    some { err := none, sink := st.sink ++ st.pending ++ [systemRunCall "result:success"] }

/-! ### `Cleanup` (section 4.7) -/

/-- Modelled from the spec: the state of a `Cleanup` call: the state of the
process, the indices of the tasks invoked so far, in order, and the failures
collected (section 4.7). -/
structure CleanupState (σ : Type) where
  world : σ
  invoked : List Nat
  failures : List GoError

/-- Modelled from the spec: the loop of `Cleanup` from task number `i` on
(section 4.7): every task runs, a failure is collected and the loop goes on. -/
def cleanupFrom {σ : Type} : List (CleanupTask σ) → Nat → CleanupState σ → CleanupState σ
  | [], _, st => st
  | task :: rest, i, st =>
    let out := task st.world
    let failures :=
      match out.1 with
      | some e => st.failures ++ [e]
      | none => st.failures
    cleanupFrom rest (i + 1)
      { world := out.2, invoked := st.invoked ++ [i], failures := failures }

/-- Modelled from the spec: `Cleanup(ctx)`, whose code is in the package's
implementation file, not among the sources (section 4.7). -/
def System.Cleanup {σ : Type} (sys : System σ) (world : σ) : CleanupState σ :=
  cleanupFrom sys.cleanups 0 { world := world, invoked := [], failures := [] }

/-! ### The system of `TestSystem_Run` -/

/-- The mock producer of the test (lines 103-122). -/
def mockMetricProducer : MetricProducer where
  MetricName := ""
  poll := some (⟨[("key_a", 1), ("key_b", 2)], by decide⟩,
    ⟨[("key_a", ["foo:bar"]), ("key_b", ["baz:qux"])], by decide⟩)

/-- The mock health checker of the test (lines 131-133). -/
def mockHealthChecker : HealthProbe := ⟨"name", none, none⟩

/-- The system the test builds (lines 33-54): the state of the process is the
flag `cleanupCalled`. -/
def testSystem : System Bool :=
  ((((New Bool).AddMetrics mockMetricProducer).AddService ⟨none⟩).AddHealthCheck
    mockHealthChecker).AddCleanup (fun _ => (none, true))

/-- A system whose only service returns at once, without error. -/
def earlyReturnSystem : System Unit := (New Unit).AddService ⟨none⟩

end system

/-! ## Theorems: `errors.Is` -/

/-- An error is itself, in the sense of `errors.Is`. -/
theorem GoError.is_self (e : GoError) : e.is e = true := by
  cases e <;> simp [GoError.is]

/-- An error that wraps `target` is `target`, in the sense of `errors.Is`. -/
theorem GoError.is_wrap (m : String) (target : GoError) :
    (GoError.wrap m target).is target = true := by
  simp [GoError.is, GoError.is_self]

/-! ## Theorems: `releases/release` -/

namespace release

theorem responses_append {ρ R : Type} (xs ys : List (Call ρ R)) :
    responses (xs ++ ys) = responses xs ++ responses ys := by
  induction xs with
  | nil => rfl
  | cons x xs ih => cases x <;> simp [responses, ih]

theorem statuses_append {ρ R : Type} (xs ys : List (Call ρ R)) :
    statuses (xs ++ ys) = statuses xs ++ statuses ys := by
  induction xs with
  | nil => rfl
  | cons x xs ih => cases x <;> simp [statuses, ih]

theorem collaboratorCalls_append {ρ R : Type} (xs ys : List (Call ρ R)) :
    collaboratorCalls (xs ++ ys) = collaboratorCalls xs ++ collaboratorCalls ys := by
  induction xs with
  | nil => rfl
  | cons x xs ih => cases x <;> simp [collaboratorCalls, ih]

/-- Resolving the version writes nothing to the response. -/
theorem resolveVersion_responses {κ ρ R : Type} (cfg : HandlerConfig κ ρ R) (ctx : κ)
    (req : Requirements ρ) :
    responses (resolveVersion cfg ctx req).2 = [] ∧
      statuses (resolveVersion cfg ctx req).2 = [] := by
  unfold resolveVersion
  split
  · split <;> simp [responses, statuses]
  · simp [responses, statuses]

/-- The switch of `Handler` answers with one `c.JSON` whose code is 404, 500
or 200 by the error alone. -/
theorem respond_spec {ρ R : Type} (ErrNotFound : GoError) (rel : R) (err : Option GoError) :
    ∃ code body, (respond ErrNotFound rel err : Call ρ R) = Call.JSON code body ∧
      (code = StatusNotFound ↔ errorsIs err (some ErrNotFound) = true) ∧
      (code = StatusInternalServerError ↔
        (err ≠ none ∧ errorsIs err (some ErrNotFound) = false)) ∧
      (code = StatusOK ↔ err = none) ∧
      (err = none → body = Body.rel rel) := by
  unfold respond
  by_cases h1 : errorsIs err (some ErrNotFound) = true
  · have hne : err ≠ none := by
      intro h
      rw [h] at h1
      simp [errorsIs] at h1
    refine ⟨_, _, by rw [if_pos h1], ?_⟩
    simp [h1, hne, StatusNotFound, StatusInternalServerError, StatusOK]
  · by_cases h2 : err = none
    · refine ⟨_, _, by rw [if_neg h1, if_neg (by simpa using h2)], ?_⟩
      simp [h1, h2, StatusNotFound, StatusInternalServerError, StatusOK, errorsIs]
    · refine ⟨_, _, by rw [if_neg h1, if_pos h2], ?_⟩
      simp [h1, h2, StatusNotFound, StatusInternalServerError, StatusOK]

/-- The calls of the handler on a request that binds and validates. -/
theorem Handler_valid {κ ρ R : Type} (Validate : Requirements ρ → Option GoError)
    (ErrNotFound : GoError) (cfg : HandlerConfig κ ρ R) (c : GinContext κ ρ)
    (req : Requirements ρ) (hb : c.BindJSON = .ok req) (hv : Validate req = none) :
    Handler Validate ErrNotFound cfg c =
      (resolveVersion cfg c.ctx req).2 ++
        [Call.Lookup (resolveVersion cfg c.ctx req).1,
          respond ErrNotFound (cfg.List.Lookup c.ctx (resolveVersion cfg c.ctx req).1).1
            (cfg.List.Lookup c.ctx (resolveVersion cfg c.ctx req).1).2] := by
  unfold Handler
  rw [hb]
  simp only [hv]

/-- On a request that binds and validates the handler writes one status, and
it is not 400. -/
theorem Handler_valid_statuses {κ ρ R : Type}
    (Validate : Requirements ρ → Option GoError) (ErrNotFound : GoError)
    (cfg : HandlerConfig κ ρ R) (c : GinContext κ ρ) (req : Requirements ρ)
    (hb : c.BindJSON = .ok req) (hv : Validate req = none) :
    ∃ code, statuses (Handler Validate ErrNotFound cfg c) = [code] ∧
      code ≠ StatusBadRequest := by
  obtain ⟨code, body, hr, h404, h500, h200, -⟩ :=
    respond_spec (ρ := ρ) ErrNotFound
      (cfg.List.Lookup c.ctx (resolveVersion cfg c.ctx req).1).1
      (cfg.List.Lookup c.ctx (resolveVersion cfg c.ctx req).1).2
  refine ⟨code, ?_, ?_⟩
  · rw [Handler_valid Validate ErrNotFound cfg c req hb hv, hr, statuses_append,
      (resolveVersion_responses cfg c.ctx req).2]
    simp [statuses]
  · intro hc
    by_cases h1 : errorsIs (cfg.List.Lookup c.ctx (resolveVersion cfg c.ctx req).1).2
        (some ErrNotFound) = true
    · have := h404.mpr h1
      rw [hc] at this
      exact absurd this (by decide)
    · by_cases h2 : (cfg.List.Lookup c.ctx (resolveVersion cfg c.ctx req).1).2 = none
      · have := h200.mpr h2
        rw [hc] at this
        exact absurd this (by decide)
      · have := h500.mpr ⟨h2, by simpa using h1⟩
        rw [hc] at this
        exact absurd this (by decide)

/-- C6. On a request that binds and validates the handler calls `Lookup`
once and writes exactly one response, a `c.JSON`, whose status is decided by
the `(rel, err)` that call returned: 404 iff `errors.Is(err, ErrNotFound)`
(so also when `err` wraps `ErrNotFound`), 500 iff `err` is non-nil and
`errors.Is(err, ErrNotFound)` is false, 200 iff `err` is nil, and then the
body is `rel`. -/
theorem Handler_status_decided_by_lookup {κ ρ R : Type}
    (Validate : Requirements ρ → Option GoError) (ErrNotFound : GoError)
    (cfg : HandlerConfig κ ρ R) (c : GinContext κ ρ) (req : Requirements ρ)
    (hb : c.BindJSON = .ok req) (hv : Validate req = none) :
    ∃ q code body,
      (Handler Validate ErrNotFound cfg c).filter
          Call.isLookup = [Call.Lookup q] ∧
      responses (Handler Validate ErrNotFound cfg c) = [Call.JSON code body] ∧
      statuses (Handler Validate ErrNotFound cfg c) = [code] ∧
      (code = StatusNotFound ↔ errorsIs (cfg.List.Lookup c.ctx q).2 (some ErrNotFound) = true) ∧
      (∀ m, (cfg.List.Lookup c.ctx q).2 = some (GoError.wrap m ErrNotFound) →
        code = StatusNotFound) ∧
      (code = StatusInternalServerError ↔
        ((cfg.List.Lookup c.ctx q).2 ≠ none ∧
          errorsIs (cfg.List.Lookup c.ctx q).2 (some ErrNotFound) = false)) ∧
      (code = StatusOK ↔ (cfg.List.Lookup c.ctx q).2 = none) ∧
      ((cfg.List.Lookup c.ctx q).2 = none → body = Body.rel (cfg.List.Lookup c.ctx q).1) := by
  obtain ⟨code, body, hr, h404, h500, h200, hbody⟩ :=
    respond_spec (ρ := ρ) ErrNotFound
      (cfg.List.Lookup c.ctx (resolveVersion cfg c.ctx req).1).1
      (cfg.List.Lookup c.ctx (resolveVersion cfg c.ctx req).1).2
  refine ⟨(resolveVersion cfg c.ctx req).1, code, body, ?_, ?_, ?_, h404, ?_, h500, h200, hbody⟩
  · rw [Handler_valid Validate ErrNotFound cfg c req hb hv, hr]
    unfold resolveVersion
    split
    · split <;> simp [Call.isLookup]
    · simp [Call.isLookup]
  · rw [Handler_valid Validate ErrNotFound cfg c req hb hv, hr, responses_append,
      (resolveVersion_responses cfg c.ctx req).1]
    simp [responses]
  · rw [Handler_valid Validate ErrNotFound cfg c req hb hv, hr, statuses_append,
      (resolveVersion_responses cfg c.ctx req).2]
    simp [statuses]
  · intro m hm
    rw [h404, hm]
    simp [errorsIs, GoError.is_wrap]

/-- C6 at a request for an unknown version: the lookup error wraps the
not-found sentinel and the handler answers 404. -/
theorem Handler_status_decided_by_lookup_witness :
    (exampleContext "9.9.9").BindJSON = .ok { Version := "9.9.9", rest := 7 } ∧
    exampleValidate { Version := "9.9.9", rest := 7 } = none ∧
    ∃ q code body,
      (Handler exampleValidate exampleErrNotFound ⟨exampleList, none⟩
          (exampleContext "9.9.9")).filter
          Call.isLookup = [Call.Lookup q] ∧
      responses (Handler exampleValidate exampleErrNotFound ⟨exampleList, none⟩
          (exampleContext "9.9.9")) = [Call.JSON code body] ∧
      statuses (Handler exampleValidate exampleErrNotFound ⟨exampleList, none⟩
          (exampleContext "9.9.9")) = [code] ∧
      (code = StatusNotFound ↔
        errorsIs (exampleList.Lookup () q).2 (some exampleErrNotFound) = true) ∧
      (∀ m, (exampleList.Lookup () q).2 = some (GoError.wrap m exampleErrNotFound) →
        code = StatusNotFound) ∧
      (code = StatusInternalServerError ↔
        ((exampleList.Lookup () q).2 ≠ none ∧
          errorsIs (exampleList.Lookup () q).2 (some exampleErrNotFound) = false)) ∧
      (code = StatusOK ↔ (exampleList.Lookup () q).2 = none) ∧
      ((exampleList.Lookup () q).2 = none → body = Body.rel (exampleList.Lookup () q).1) :=
  ⟨rfl, rfl, Handler_status_decided_by_lookup exampleValidate exampleErrNotFound
    ⟨exampleList, none⟩ (exampleContext "9.9.9") { Version := "9.9.9", rest := 7 } rfl rfl⟩

/-- C7. When the body does not bind, or the bound requirements do not
validate, the only call of the handler is `c.AbortWithStatus(400)`: the
`Resolver` and the `List` are not called. Conversely a status 400 is written
only in these two cases. -/
theorem Handler_bad_request {κ ρ R : Type} (Validate : Requirements ρ → Option GoError)
    (ErrNotFound : GoError) (cfg : HandlerConfig κ ρ R) (c : GinContext κ ρ) :
    (((∃ e, c.BindJSON = .error e) ∨
        (∃ req e, c.BindJSON = .ok req ∧ Validate req = some e)) →
      Handler Validate ErrNotFound cfg c = [Call.AbortWithStatus StatusBadRequest] ∧
      collaboratorCalls (Handler Validate ErrNotFound cfg c) = [] ∧
      statuses (Handler Validate ErrNotFound cfg c) = [StatusBadRequest]) ∧
    (StatusBadRequest ∈ statuses (Handler Validate ErrNotFound cfg c) →
      ((∃ e, c.BindJSON = .error e) ∨
        (∃ req e, c.BindJSON = .ok req ∧ Validate req = some e))) := by
  constructor
  · rintro (⟨e, he⟩ | ⟨req, e, hb, hv⟩)
    · simp [Handler, he, collaboratorCalls, statuses]
    · simp [Handler, hb, hv, collaboratorCalls, statuses]
  · intro hmem
    cases hb : c.BindJSON with
    | error e => exact Or.inl ⟨e, rfl⟩
    | ok req =>
      cases hv : Validate req with
      | some e => exact Or.inr ⟨req, e, rfl, hv⟩
      | none =>
        exfalso
        obtain ⟨code, hs, hne⟩ := Handler_valid_statuses Validate ErrNotFound cfg c req hb hv
        rw [hs] at hmem
        exact hne (List.mem_singleton.mp hmem).symm

/-- C8. On a request that binds and validates, the requirements passed to
`Lookup` are the bound ones but for `Version`: a non-empty version is passed
on and neither the `Resolver` nor `Latest`/`LatestFor` is called; an empty
version becomes `List.Latest()` when the `Resolver` is nil, and
`List.LatestFor(Resolver.ReleaseType(ctx))` otherwise, with `ReleaseType`
called once. -/
theorem Handler_lookup_requirements {κ ρ R : Type}
    (Validate : Requirements ρ → Option GoError) (ErrNotFound : GoError)
    (cfg : HandlerConfig κ ρ R) (c : GinContext κ ρ) (req : Requirements ρ)
    (hb : c.BindJSON = .ok req) (hv : Validate req = none) :
    (req.Version ≠ "" →
      collaboratorCalls (Handler Validate ErrNotFound cfg c) = [Call.Lookup req]) ∧
    (req.Version = "" → cfg.Resolver = none →
      collaboratorCalls (Handler Validate ErrNotFound cfg c) =
        [Call.Latest, Call.Lookup { Version := cfg.List.Latest, rest := req.rest }]) ∧
    (∀ r, req.Version = "" → cfg.Resolver = some r →
      collaboratorCalls (Handler Validate ErrNotFound cfg c) =
        [Call.ReleaseType, Call.LatestFor (r.ReleaseType c.ctx),
          Call.Lookup { Version := cfg.List.LatestFor (r.ReleaseType c.ctx), rest := req.rest }] ∧
      ((Handler Validate ErrNotFound cfg c).filter Call.isReleaseType).length = 1) := by
  have hH := Handler_valid Validate ErrNotFound cfg c req hb hv
  obtain ⟨code, body, hr, -⟩ :=
    respond_spec (ρ := ρ) ErrNotFound
      (cfg.List.Lookup c.ctx (resolveVersion cfg c.ctx req).1).1
      (cfg.List.Lookup c.ctx (resolveVersion cfg c.ctx req).1).2
  rw [hr] at hH
  refine ⟨?_, ?_, ?_⟩
  · intro hne
    rw [hH]
    simp [resolveVersion, hne, collaboratorCalls]
  · intro he hres
    rw [hH]
    simp [resolveVersion, he, hres, collaboratorCalls]
  · intro r he hres
    rw [hH]
    simp [resolveVersion, he, hres, collaboratorCalls, Call.isReleaseType]

/-- C8 at a request with no version, with a resolver that answers `canary`. -/
theorem Handler_lookup_requirements_witness :
    (exampleContext "").BindJSON = .ok { Version := "", rest := 7 } ∧
    exampleValidate { Version := "", rest := 7 } = none ∧
    collaboratorCalls (Handler exampleValidate exampleErrNotFound
        ⟨exampleList, some ⟨fun _ => "canary"⟩⟩ (exampleContext "")) =
      [Call.ReleaseType, Call.LatestFor "canary", Call.Lookup { Version := "2.0.0", rest := 7 }] :=
  ⟨rfl, rfl,
    ((Handler_lookup_requirements exampleValidate exampleErrNotFound
      ⟨exampleList, some ⟨fun _ => "canary"⟩⟩ (exampleContext "") { Version := "", rest := 7 }
      rfl rfl).2.2 ⟨fun _ => "canary"⟩ rfl rfl).1⟩

end release

/-! ## Theorems: `testing/mongofixture` -/

namespace mongofixture

/-- The result of `truncate` in closed form. -/
theorem truncate_eq (s : GoString) : truncate s = some (s.take (min s.length 63)) := by
  unfold truncate sliceTo
  by_cases h : s.length ≥ 64
  · have h1 : 63 ≤ s.length := by omega
    have h2 : min s.length 63 = 63 := by omega
    simp [h, h1, h2]
  · have h2 : min s.length 63 = s.length := by omega
    simp [h, h2]

/-- No digit of the hex table is the byte `n`, the first byte of the fallback
suffix. -/
theorem hexDigit_ne_n (k : Nat) (hk : k < 16) : hextable.getD k 0 ≠ (110 : Byte) := by
  interval_cases k <;> decide

theorem randomSuffix_some_length (p : Byte × Byte × Byte) :
    (randomSuffix (some p)).length = 6 := by
  obtain ⟨a, b, c⟩ := p
  simp [randomSuffix, hexEncodeToString]

theorem randomSuffix_some_head (p : Byte × Byte × Byte) :
    ∃ d rest, randomSuffix (some p) = d :: rest ∧ d ≠ (110 : Byte) := by
  obtain ⟨a, b, c⟩ := p
  refine ⟨_, _, rfl, ?_⟩
  apply hexDigit_ne_n
  have := a.isLt
  omega

theorem randomSuffix_none_head :
    ∃ rest, randomSuffix none = (110 : Byte) :: rest :=
  ⟨(randomSuffix none).tail, by decide⟩

theorem randomSuffix_length_le (rnd : Option (Byte × Byte × Byte)) :
    6 ≤ (randomSuffix rnd).length ∧ (randomSuffix rnd).length ≤ 27 := by
  cases rnd with
  | none => decide
  | some p => rw [randomSuffix_some_length]; omega

/-- The truncated name keeps the whole random suffix: the name `Setup`
computes is the suffix followed by some bytes. -/
theorem setupName_keeps_suffix (rnd : Option (Byte × Byte × Byte)) (t : GoString) :
    ∃ tail, setupName rnd t = some (randomSuffix rnd ++ tail) := by
  have hl := randomSuffix_length_le rnd
  refine ⟨(lit "-" ++ replaceSlash t).take (min (sprintfDash (randomSuffix rnd)
    (replaceSlash t)).length 63 - (randomSuffix rnd).length), ?_⟩
  unfold setupName
  rw [truncate_eq]
  simp only [sprintfDash, List.append_assoc, List.take_append_eq_append_take]
  congr 2
  apply List.take_of_length_le
  simp only [List.length_append]
  have : (lit "-").length = 1 := by decide
  omega

/-- C10. `truncate(s)` is the prefix of `s` of length `min(len(s), 63)`: it
is `s` itself when `len(s) <= 63`, the first 63 bytes when `len(s) >= 64`,
the slice `s[:63]` it then takes does not panic, and the database name of
`Setup` is a prefix of the formatted name of at most 63 bytes. -/
theorem truncate_is_prefix_of_length_min (s : GoString) :
    (∃ r, truncate s = some r ∧ r <+: s ∧ r.length = min s.length 63) ∧
    (s.length ≤ 63 → truncate s = some s) ∧
    (64 ≤ s.length → sliceTo s 63 = some (s.take 63) ∧ truncate s = some (s.take 63)) ∧
    (∀ (rnd : Option (Byte × Byte × Byte)) (testName : GoString),
      ∃ name, setupName rnd testName = some name ∧ name.length ≤ 63 ∧
        name <+: sprintfDash (randomSuffix rnd) (replaceSlash testName)) := by
  refine ⟨⟨_, truncate_eq s, List.take_prefix _ _, ?_⟩, ?_, ?_, ?_⟩
  · simp only [List.length_take]
    omega
  · intro h
    rw [truncate_eq, List.take_of_length_le (by omega)]
  · intro h
    have h2 : min s.length 63 = 63 := by omega
    refine ⟨?_, by rw [truncate_eq, h2]⟩
    unfold sliceTo
    rw [if_pos (by omega)]
  · intro rnd testName
    refine ⟨_, truncate_eq _, ?_, List.take_prefix _ _⟩
    simp only [List.length_take]
    omega

/-- C9. Two fixtures whose random suffixes differ never share a database
name, whatever the two test names are: truncation to 63 bytes keeps the
suffix. -/
theorem setupName_ne_of_suffix_ne (rnd1 rnd2 : Option (Byte × Byte × Byte))
    (t1 t2 : GoString) (h : randomSuffix rnd1 ≠ randomSuffix rnd2) :
    setupName rnd1 t1 ≠ setupName rnd2 t2 := by
  obtain ⟨tail1, h1⟩ := setupName_keeps_suffix rnd1 t1
  obtain ⟨tail2, h2⟩ := setupName_keeps_suffix rnd2 t2
  rw [h1, h2]
  intro heq
  have heq2 : randomSuffix rnd1 ++ tail1 = randomSuffix rnd2 ++ tail2 := Option.some.inj heq
  cases rnd1 with
  | none =>
    cases rnd2 with
    | none => exact h rfl
    | some p =>
      obtain ⟨r1, e1⟩ := randomSuffix_none_head
      obtain ⟨d, r2, e2, hd⟩ := randomSuffix_some_head p
      rw [e1, e2] at heq2
      simp only [List.cons_append, List.cons.injEq] at heq2
      exact hd heq2.1.symm
  | some p =>
    cases rnd2 with
    | none =>
      obtain ⟨r1, e1⟩ := randomSuffix_none_head
      obtain ⟨d, r2, e2, hd⟩ := randomSuffix_some_head p
      rw [e1, e2] at heq2
      simp only [List.cons_append, List.cons.injEq] at heq2
      exact hd heq2.1
    | some q =>
      have hlen : (randomSuffix (some p)).length = (randomSuffix (some q)).length := by
        rw [randomSuffix_some_length, randomSuffix_some_length]
      exact h (List.append_inj heq2 hlen).1

/-- C9 at a hex suffix and the fallback suffix, with the same test name. -/
theorem setupName_ne_of_suffix_ne_witness :
    randomSuffix (some (0, 255, 171)) ≠ randomSuffix none ∧
    setupName (some (0, 255, 171)) (lit "TestA/sub") ≠ setupName none (lit "TestA/sub") :=
  ⟨by decide, setupName_ne_of_suffix_ne (some (0, 255, 171)) none (lit "TestA/sub")
    (lit "TestA/sub") (by decide)⟩

end mongofixture

/-! ## Theorems: `system` -/

namespace system

/-! ### The metrics loop -/

theorem emitGauges_eq (producerName : String) (tags : GoMap (List String))
    (kvs : List (String × Int)) (sink : List MetricCall) :
    emitGauges producerName tags kvs sink = sink ++ kvs.map (gaugeCall producerName tags) := by
  induction kvs generalizing sink with
  | nil => simp [emitGauges]
  | cons kv rest ih => simp [emitGauges, ih]

theorem pollProducers_eq (producers : List MetricProducer) (st : TickState) :
    pollProducers producers st =
      { sink := st.sink ++ producers.flatMap (fun p =>
          match p.poll with
          | some (gauges, tags) => gauges.entries.map (gaugeCall p.MetricName tags)
          | none => [])
        failed := st.failed || producers.any (fun p => p.poll.isNone) } := by
  induction producers generalizing st with
  | nil => simp [pollProducers]
  | cons p rest ih =>
    rw [pollProducers, ih]
    unfold pollProducer
    cases hg : p.poll with
    | none => simp [hg]
    | some maps => simp [hg, emitGauges_eq]

/-- In a map, the entry an iteration visits for a key is what indexing by
that key gives. -/
theorem GoMap.index_of_mem {α : Type} (m : GoMap α) (k : String) (v zero : α)
    (h : (k, v) ∈ m.entries) : m.index k zero = v := by
  obtain ⟨entries, nodup⟩ := m
  unfold GoMap.index
  simp only at h ⊢
  induction entries with
  | nil => simp at h
  | cons kv rest ih =>
    obtain ⟨k1, v1⟩ := kv
    simp only [List.map_cons, List.nodup_cons] at nodup
    rcases List.mem_cons.mp h with heq | hmem
    · simp only [Prod.mk.injEq] at heq
      simp [List.lookup, heq.1, heq.2]
    · have hne : k ≠ k1 := by
        intro hk
        apply nodup.1
        rw [← hk]
        exact List.mem_map_of_mem Prod.fst hmem
      have hb : (k == k1) = false := by simpa using hne
      simp only [List.lookup, hb]
      exact ih nodup.2 hmem

theorem string_append_right_inj (a b c : String) (h : a ++ b = a ++ c) : b = c := by
  have hd := congrArg String.data h
  simp only [String.data_append] at hd
  exact String.ext (List.append_cancel_left hd)

/-- Among the gauges emitted for one gauges map, the name made from a key
occurs once when the key is in the map and not at all otherwise. -/
theorem gaugeCalls_count (producerName : String) (tags : GoMap (List String))
    (gauges : GoMap Int) (k : String) :
    ((gauges.entries.map (gaugeCall producerName tags)).filter
      (fun m => decide (m.Name = "gauge." ++ producerName ++ "." ++ k))).length =
      if k ∈ gauges.keys then 1 else 0 := by
  obtain ⟨entries, nodup⟩ := gauges
  unfold GoMap.keys
  simp only
  have hname : ∀ kv : String × Int,
      decide ((gaugeCall producerName tags kv).Name = "gauge." ++ producerName ++ "." ++ k) =
        decide (kv.1 = k) := by
    intro kv
    simp only [gaugeCall, decide_eq_decide]
    constructor
    · exact string_append_right_inj _ _ _
    · intro h
      rw [h]
  induction entries with
  | nil => simp
  | cons kv rest ih =>
    simp only [List.map_cons, List.nodup_cons] at nodup
    simp only [List.map_cons, List.filter_cons, hname, List.mem_cons]
    by_cases hk : kv.1 = k
    · have hnot : k ∉ List.map Prod.fst rest := by
        rw [← hk]
        exact nodup.1
      have := ih nodup.2
      simp only [hnot, if_false] at this
      simp [hk, this]
    · have hk2 : ¬ k = kv.1 := fun h => hk h.symm
      simp only [hk, decide_False, hk2, false_or]
      exact ih nodup.2

/-- C3. One tick of the metrics loop sends to the sink, after what it held:
for each producer in registration order and each key of its gauges map, in
the order the map is iterated, the gauge named
`"gauge." + MetricName() + "." + k` with value `Gauges[k]`, tags `Tags[k]`
(empty for an absent key) and rate 1, that name occurring once among the
producer's gauges (a producer whose access failed emits none); then one
`worker_loop` timer with rate 1, tagged `loop_name:metric-loop` and
`result:success`, or `result:failure` if a producer access failed. For the
producer of the test: `gauge..key_a`, `gauge..key_b`, `worker_loop`. -/
theorem metricsTick_emissions (producers : List MetricProducer) (sink : List MetricCall) :
    metricsTick producers sink =
      sink ++ producers.flatMap (fun p =>
          match p.poll with
          | some (gauges, tags) => gauges.entries.map (gaugeCall p.MetricName tags)
          | none => []) ++
        [{ Metric := "timer", Name := "worker_loop", Value := none,
           Tags := ["loop_name:metric-loop",
             if producers.any (fun p => p.poll.isNone)
             then "result:failure" else "result:success"],
           Rate := 1 }] ∧
    (∀ (name : String) (gauges : GoMap Int) (tags : GoMap (List String)) (k : String) (v : Int),
      (k, v) ∈ gauges.entries →
      gaugeCall name tags (k, v) =
        { Metric := "gauge", Name := "gauge." ++ name ++ "." ++ k,
          Value := some (gauges.index k 0), Tags := tags.index k [], Rate := 1 } ∧
      (k ∉ tags.keys → tags.index k [] = []) ∧
      ((gauges.entries.map (gaugeCall name tags)).filter
        (fun m => decide (m.Name = "gauge." ++ name ++ "." ++ k))).length = 1) ∧
    metricsTick [mockMetricProducer] [] =
      [{ Metric := "gauge", Name := "gauge..key_a", Value := some 1, Tags := ["foo:bar"],
         Rate := 1 },
       { Metric := "gauge", Name := "gauge..key_b", Value := some 2, Tags := ["baz:qux"],
         Rate := 1 },
       { Metric := "timer", Name := "worker_loop", Value := none,
         Tags := ["loop_name:metric-loop", "result:success"], Rate := 1 }] := by
  refine ⟨?_, ?_, by decide⟩
  · unfold metricsTick
    simp only [pollProducers_eq, workerLoopCall, Bool.false_or]
  · intro name gauges tags k v hmem
    refine ⟨?_, ?_, ?_⟩
    · simp [gaugeCall, GoMap.index_of_mem gauges k v 0 hmem]
    · intro hk
      unfold GoMap.index
      have : tags.entries.lookup k = none := by
        rw [List.lookup_eq_none_iff]
        intro kv hkv
        have hne : k ≠ kv.1 := by
          intro hbeq
          apply hk
          rw [hbeq]
          exact List.mem_map_of_mem Prod.fst hkv
        simpa using hne
      rw [this]
      rfl
    · rw [gaugeCalls_count]
      have : k ∈ gauges.keys := List.mem_map_of_mem Prod.fst hmem
      simp [this]

/-! ### `Cleanup` -/

theorem cleanupFrom_invoked {σ : Type} (tasks : List (CleanupTask σ)) (i : Nat)
    (st : CleanupState σ) :
    (cleanupFrom tasks i st).invoked = st.invoked ++ List.range' i tasks.length := by
  induction tasks generalizing i st with
  | nil => simp [cleanupFrom]
  | cons task rest ih => simp [cleanupFrom, ih, List.range'_succ]

theorem cleanupFrom_world {σ : Type} (tasks : List (CleanupTask σ)) (i : Nat)
    (st : CleanupState σ) :
    (cleanupFrom tasks i st).world = tasks.foldl (fun w task => (task w).2) st.world := by
  induction tasks generalizing i st with
  | nil => simp [cleanupFrom]
  | cons task rest ih => simp [cleanupFrom, ih]

/-- C5. One call of `Cleanup` invokes the registered tasks `0, 1, ..., n-1`,
each once and in registration order, whatever each of them returns: the
state of the process after the call is the state after running every task
in turn. With no registered task nothing is invoked and the state is
unchanged. -/
theorem Cleanup_invokes_each_once {σ : Type} (sys : System σ) (world : σ) :
    (sys.Cleanup world).invoked = List.range sys.cleanups.length ∧
    (∀ i, i < sys.cleanups.length → (sys.Cleanup world).invoked.count i = 1) ∧
    (sys.Cleanup world).world = sys.cleanups.foldl (fun w task => (task w).2) world ∧
    (sys.cleanups = [] →
      (sys.Cleanup world).invoked = [] ∧ (sys.Cleanup world).world = world) := by
  have hinv : (sys.Cleanup world).invoked = List.range sys.cleanups.length := by
    unfold System.Cleanup
    rw [cleanupFrom_invoked, List.range_eq_range']
    simp
  refine ⟨hinv, ?_, ?_, ?_⟩
  · intro i hi
    rw [hinv]
    exact List.count_eq_one_of_mem (List.nodup_range _) (List.mem_range.mpr hi)
  · unfold System.Cleanup
    rw [cleanupFrom_world]
  · intro hnil
    unfold System.Cleanup
    rw [hnil]
    simp [cleanupFrom]

/-! ### `Run` -/

theorem runEvents_append {σ : Type} (sys : System σ) (pollInterval : Nat)
    (xs ys : List Event) (st : RunState) :
    runEvents sys pollInterval (xs ++ ys) st =
      runEvents sys pollInterval ys (runEvents sys pollInterval xs st) := by
  induction xs generalizing st with
  | nil => rfl
  | cons x xs ih => simp [runEvents, ih]

/-- Once the run has left `Running`, an event changes neither the phase nor
what the sink holds or is still to receive: at most one pending emission is
sent. -/
theorem step_of_not_running {σ : Type} (sys : System σ) (pollInterval : Nat) (st : RunState)
    (ev : Event) (h : st.phase ≠ Phase.Running) :
    (step sys pollInterval st ev).phase = st.phase ∧
      (step sys pollInterval st ev).sink ++ (step sys pollInterval st ev).pending =
        st.sink ++ st.pending := by
  unfold step
  cases ev with
  | emits =>
    cases hp : st.pending with
    | nil => simp [hp]
    | cons call rest => simp
  | tick =>
    cases hph : st.phase with
    | Running => exact absurd hph h
    | Terminated => simp [hph]
    | Failed e => simp [hph]
    | Finished => simp [hph]
  | serviceReturns i =>
    cases hph : st.phase with
    | Running => exact absurd hph h
    | Terminated => simp [hph]
    | Failed e => simp [hph]
    | Finished => simp [hph]
  | terminationFires =>
    cases hph : st.phase with
    | Running => exact absurd hph h
    | Terminated => simp [hph]
    | Failed e => simp [hph]
    | Finished => simp [hph]

theorem runEvents_of_not_running {σ : Type} (sys : System σ) (pollInterval : Nat)
    (evs : List Event) (st : RunState) (h : st.phase ≠ Phase.Running) :
    (runEvents sys pollInterval evs st).phase = st.phase ∧
      (runEvents sys pollInterval evs st).sink ++ (runEvents sys pollInterval evs st).pending =
        st.sink ++ st.pending := by
  induction evs generalizing st with
  | nil => exact ⟨rfl, rfl⟩
  | cons ev rest ih =>
    have hs := step_of_not_running sys pollInterval st ev h
    have hr := ih (step sys pollInterval st ev) (by rw [hs.1]; exact h)
    rw [runEvents]
    exact ⟨hr.1.trans hs.1, hr.2.trans hs.2⟩

theorem gaugeCall_name_ne (producerName : String) (tags : GoMap (List String))
    (kv : String × Int) : (gaugeCall producerName tags kv).Name ≠ "system.run" := by
  intro h
  have hd := congrArg String.data h
  simp only [gaugeCall, String.data_append] at hd
  have h0 := congrArg List.head? hd
  simp [List.head?_append] at h0

/-- The closed form of a tick. -/
theorem metricsTick_eq (producers : List MetricProducer) (sink : List MetricCall) :
    metricsTick producers sink =
      sink ++ producers.flatMap (fun p =>
          match p.poll with
          | some (gauges, tags) => gauges.entries.map (gaugeCall p.MetricName tags)
          | none => []) ++
        [workerLoopCall (producers.any (fun p => p.poll.isNone))] := by
  unfold metricsTick
  simp only [pollProducers_eq, Bool.false_or]

/-- A tick adds no emission named `system.run`. -/
theorem metricsTick_no_system_run (producers : List MetricProducer) (sink : List MetricCall)
    (h : ∀ m ∈ sink, m.Name ≠ "system.run") :
    ∀ m ∈ metricsTick producers sink, m.Name ≠ "system.run" := by
  intro m hm
  rw [metricsTick_eq] at hm
  simp only [List.mem_append, List.mem_flatMap, List.mem_singleton] at hm
  rcases hm with (hm | ⟨p, -, hp⟩) | hm
  · exact h m hm
  · cases hg : p.poll with
    | none => simp [hg] at hp
    | some maps =>
      simp only [hg, List.mem_map] at hp
      obtain ⟨kv, -, rfl⟩ := hp
      exact gaugeCall_name_ne _ _ _
  · rw [hm]
    simp only [workerLoopCall]
    decide

/-- No event brings an emission named `system.run` into the sink or among the
pending emissions. -/
theorem step_no_system_run {σ : Type} (sys : System σ) (pollInterval : Nat) (st : RunState)
    (ev : Event) (h : ∀ m ∈ st.sink ++ st.pending, m.Name ≠ "system.run") :
    ∀ m ∈ (step sys pollInterval st ev).sink ++ (step sys pollInterval st ev).pending,
      m.Name ≠ "system.run" := by
  unfold step
  cases ev with
  | emits =>
    cases hp : st.pending with
    | nil =>
      rw [hp] at h
      simpa [hp] using h
    | cons call rest =>
      rw [hp] at h
      simpa using h
  | tick =>
    cases hph : st.phase with
    | Running =>
      simp only
      split
      · exact h
      · rename_i hcond
        have hpend : st.pending = [] := by
          by_contra hne
          exact hcond (Or.inl hne)
        intro m hm
        simp only [List.mem_append] at hm
        rcases hm with hm | hm
        · exact h m (List.mem_append_left _ hm)
        · exact metricsTick_no_system_run sys.metrics [] (by simp) m hm
    | Terminated => exact h
    | Failed e => exact h
    | Finished => exact h
  | serviceReturns i =>
    cases hph : st.phase with
    | Running =>
      simp only
      split
      · split
        · exact h
        · exact h
      · exact h
    | Terminated => exact h
    | Failed e => exact h
    | Finished => exact h
  | terminationFires =>
    cases hph : st.phase with
    | Running => exact h
    | Terminated => exact h
    | Failed e => exact h
    | Finished => exact h

theorem runEvents_no_system_run {σ : Type} (sys : System σ) (pollInterval : Nat)
    (evs : List Event) (st : RunState)
    (h : ∀ m ∈ st.sink ++ st.pending, m.Name ≠ "system.run") :
    ∀ m ∈ (runEvents sys pollInterval evs st).sink ++
        (runEvents sys pollInterval evs st).pending, m.Name ≠ "system.run" := by
  induction evs generalizing st with
  | nil => exact h
  | cons ev rest ih => exact ih _ (step_no_system_run sys pollInterval st ev h)

/-- An event that does not trigger leaves the phase as it is. -/
theorem step_phase_of_not_triggers {σ : Type} (sys : System σ) (pollInterval : Nat)
    (st : RunState) (ev : Event) (hev : ev.triggers sys = false) :
    (step sys pollInterval st ev).phase = st.phase := by
  unfold step
  cases ev with
  | emits =>
    cases hp : st.pending with
    | nil => simp [hp]
    | cons call rest => simp
  | tick =>
    cases hph : st.phase with
    | Running =>
      simp only
      split
      · exact hph
      · rfl
    | Terminated => exact hph
    | Failed e => exact hph
    | Finished => exact hph
  | serviceReturns i =>
    simp only [Event.triggers] at hev
    cases hi : sys.services.get? i with
    | none =>
      cases hph : st.phase with
      | Running => simp only [hi, hph]
      | Terminated => simp only [hph]
      | Failed e => simp only [hph]
      | Finished => simp only [hph]
    | some task =>
      rw [hi] at hev
      simp at hev
  | terminationFires => simp [Event.triggers] at hev

theorem runEvents_phase_of_not_triggers {σ : Type} (sys : System σ) (pollInterval : Nat)
    (evs : List Event) (st : RunState) (hev : ∀ ev ∈ evs, ev.triggers sys = false) :
    (runEvents sys pollInterval evs st).phase = st.phase := by
  induction evs generalizing st with
  | nil => rfl
  | cons ev rest ih =>
    rw [runEvents, ih _ (fun x hx => hev x (List.mem_cons_of_mem _ hx)),
      step_phase_of_not_triggers sys pollInterval st ev (hev ev (List.mem_cons_self _ _))]

/-- The first triggering event of a schedule that has one. -/
theorem exists_first_trigger {σ : Type} (sys : System σ) (schedule : List Event)
    (h : ∃ ev ∈ schedule, ev.triggers sys = true) :
    ∃ pre ev post, schedule = pre ++ ev :: post ∧ ev.triggers sys = true ∧
      (∀ x ∈ pre, x.triggers sys = false) ∧
      schedule.find? (fun x => x.triggers sys) = some ev := by
  induction schedule with
  | nil =>
    obtain ⟨ev, hev, -⟩ := h
    simp at hev
  | cons x rest ih =>
    by_cases hx : x.triggers sys = true
    · exact ⟨[], x, rest, rfl, hx, by simp, by simp [List.find?, hx]⟩
    · have hx2 : x.triggers sys = false := by simpa using hx
      obtain ⟨ev, hev, ht⟩ := h
      have hrest : ∃ ev ∈ rest, ev.triggers sys = true := by
        rcases List.mem_cons.mp hev with heq | hmem
        · rw [heq] at ht
          exact absurd ht hx
        · exact ⟨ev, hmem, ht⟩
      obtain ⟨pre, ev2, post, hs, ht2, hpre, hfind⟩ := ih hrest
      refine ⟨x :: pre, ev2, post, by rw [hs]; rfl, ht2, ?_, by simp [List.find?, hx2, hfind]⟩
      intro y hy
      rcases List.mem_cons.mp hy with heq | hmem
      · rw [heq]
        exact hx2
      · exact hpre y hmem

/-- The step of a running run at the termination signal. -/
theorem step_terminationFires {σ : Type} (sys : System σ) (pollInterval : Nat) (st : RunState)
    (hp : st.phase = Phase.Running) :
    step sys pollInterval st Event.terminationFires = { st with phase := Phase.Terminated } := by
  unfold step
  simp only [hp]

/-- The step of a running run at the return of a failing service. -/
theorem step_serviceReturns {σ : Type} (sys : System σ) (pollInterval : Nat) (st : RunState)
    (i : Nat) (task : ServiceTask) (e : GoError) (hp : st.phase = Phase.Running)
    (hi : sys.services.get? i = some task) (he : task.failure = some e) :
    step sys pollInterval st (Event.serviceReturns i) = { st with phase := Phase.Failed e } := by
  unfold step
  simp only [hp, hi, he]

/-- The step of a running run at the return of a service without error. -/
theorem step_serviceReturns_nil {σ : Type} (sys : System σ) (pollInterval : Nat)
    (st : RunState) (i : Nat) (task : ServiceTask) (hp : st.phase = Phase.Running)
    (hi : sys.services.get? i = some task) (he : task.failure = none) :
    step sys pollInterval st (Event.serviceReturns i) = { st with phase := Phase.Finished } := by
  unfold step
  simp only [hp, hi, he]

/-- The state of a run after the event that ends the race and whatever
follows it: the new phase, and the sink and pending emissions of the moment
the event came, of which some may have been sent since. -/
theorem runEvents_trigger {σ : Type} (sys : System σ) (pollInterval : Nat)
    (pre post : List Event) (ev : Event) (st : RunState) (ph : Phase)
    (hph : ph ≠ Phase.Running)
    (hstep : step sys pollInterval (runEvents sys pollInterval pre st) ev =
      { runEvents sys pollInterval pre st with phase := ph }) :
    (runEvents sys pollInterval (pre ++ ev :: post) st).phase = ph ∧
      (runEvents sys pollInterval (pre ++ ev :: post) st).sink ++
          (runEvents sys pollInterval (pre ++ ev :: post) st).pending =
        (runEvents sys pollInterval pre st).sink ++ (runEvents sys pollInterval pre st).pending := by
  rw [runEvents_append, runEvents, hstep]
  exact runEvents_of_not_running sys pollInterval post _ hph

/-- What `Run` returns when the schedule leaves the run `Terminated`. -/
theorem Run_of_terminated {σ : Type} (sys : System σ) (pollInterval : Nat)
    (schedule : List Event)
    (h : (runEvents sys pollInterval schedule RunState.start).phase = Phase.Terminated) :
    Run sys pollInterval schedule =
      some { err := some ErrTerminated
             sink := (runEvents sys pollInterval schedule RunState.start).sink ++
               (runEvents sys pollInterval schedule RunState.start).pending ++
               [systemRunCall "result:success"] } := by
  unfold Run
  simp only [h]

/-- What `Run` returns when the schedule leaves the run `Failed`. -/
theorem Run_of_failed {σ : Type} (sys : System σ) (pollInterval : Nat)
    (schedule : List Event) (e : GoError)
    (h : (runEvents sys pollInterval schedule RunState.start).phase = Phase.Failed e) :
    Run sys pollInterval schedule =
      some { err := some e
             sink := (runEvents sys pollInterval schedule RunState.start).sink ++
               (runEvents sys pollInterval schedule RunState.start).pending ++
               [systemRunCall "result:failure"] } := by
  unfold Run
  simp only [h]

/-- What `Run` returns when the schedule leaves the run `Finished`. -/
theorem Run_of_finished {σ : Type} (sys : System σ) (pollInterval : Nat)
    (schedule : List Event)
    (h : (runEvents sys pollInterval schedule RunState.start).phase = Phase.Finished) :
    Run sys pollInterval schedule =
      some { err := none
             sink := (runEvents sys pollInterval schedule RunState.start).sink ++
               (runEvents sys pollInterval schedule RunState.start).pending ++
               [systemRunCall "result:success"] } := by
  unfold Run
  simp only [h]

/-- A schedule with no event that triggers leaves `Run` blocked. -/
theorem Run_blocked {σ : Type} (sys : System σ) (pollInterval : Nat) (schedule : List Event)
    (h : ∀ ev ∈ schedule, ev.triggers sys = false) : Run sys pollInterval schedule = none := by
  have hp : (runEvents sys pollInterval schedule RunState.start).phase = Phase.Running :=
    runEvents_phase_of_not_triggers sys pollInterval schedule RunState.start h
  unfold Run
  simp only [hp]

/-- Events among which no registered service returns keep a run that is
running or terminated so. -/
theorem runEvents_no_return {σ : Type} (sys : System σ) (pollInterval : Nat)
    (evs : List Event) (st : RunState)
    (hp : st.phase = Phase.Running ∨ st.phase = Phase.Terminated)
    (hev : ∀ i, Event.serviceReturns i ∈ evs → (Event.serviceReturns i).triggers sys = false) :
    (runEvents sys pollInterval evs st).phase = Phase.Running ∨
      (runEvents sys pollInterval evs st).phase = Phase.Terminated := by
  induction evs generalizing st with
  | nil => exact hp
  | cons ev rest ih =>
    apply ih
    · cases ev with
      | tick =>
        rw [step_phase_of_not_triggers sys pollInterval st Event.tick rfl]
        exact hp
      | emits =>
        rw [step_phase_of_not_triggers sys pollInterval st Event.emits rfl]
        exact hp
      | serviceReturns i =>
        rw [step_phase_of_not_triggers sys pollInterval st _ (hev i (List.mem_cons_self _ _))]
        exact hp
      | terminationFires =>
        rcases hp with hr | ht
        · rw [step_terminationFires sys pollInterval st hr]
          exact Or.inr rfl
        · rw [(step_of_not_running sys pollInterval st _ (by rw [ht]; simp)).1]
          exact Or.inr ht
    · exact fun i hi => hev i (List.mem_cons_of_mem _ hi)

/-- C1, as stated, fails: on a system whose only service returns at once
without error, no service returns a failure before the termination watcher
fires, and `Run` returns no error, which is not
`termination.ErrTerminated`. -/
theorem Run_nil_return_not_terminated :
    (∀ i task, Event.serviceReturns i ∈ [Event.serviceReturns 0] →
      earlyReturnSystem.services.get? i = some task → task.failure = none) ∧
    Run earlyReturnSystem 0 ([Event.serviceReturns 0] ++ Event.terminationFires :: []) =
      some { err := none, sink := [systemRunCall "result:success"] } ∧
    ¬ ∃ r, Run earlyReturnSystem 0
        ([Event.serviceReturns 0] ++ Event.terminationFires :: []) = some r ∧
      errorsIs r.err (some ErrTerminated) = true := by
  have hrun : Run earlyReturnSystem 0
      ([Event.serviceReturns 0] ++ Event.terminationFires :: []) =
      some { err := none, sink := [systemRunCall "result:success"] } := by decide
  refine ⟨?_, hrun, ?_⟩
  · intro i task hi hget
    have hi0 : i = 0 := by simpa using hi
    subst hi0
    have htask : task = ⟨none⟩ := by
      have h0 : earlyReturnSystem.services.get? 0 = some ⟨none⟩ := by decide
      rw [h0] at hget
      exact (Option.some.inj hget).symm
    rw [htask]
  · rintro ⟨r, hr, his⟩
    rw [hrun] at hr
    have hr2 := (Option.some.inj hr).symm
    rw [hr2] at his
    simp [errorsIs] at his

/-- C1, amended. When the termination watcher fires and no registered
service has returned before, with or without a failure, `Run` returns, and
what it returns is not nil and satisfies
`errors.Is(err, termination.ErrTerminated)`. -/
theorem Run_returns_terminated {σ : Type} (sys : System σ) (pollInterval : Nat)
    (pre post : List Event)
    (hpre : ∀ i, Event.serviceReturns i ∈ pre →
      (Event.serviceReturns i).triggers sys = false) :
    ∃ r, Run sys pollInterval (pre ++ Event.terminationFires :: post) = some r ∧
      r.err ≠ none ∧ errorsIs r.err (some ErrTerminated) = true := by
  have hphase : (runEvents sys pollInterval (pre ++ Event.terminationFires :: post)
      RunState.start).phase = Phase.Terminated := by
    rw [runEvents_append, runEvents]
    rcases runEvents_no_return sys pollInterval pre RunState.start (Or.inl rfl) hpre with
      hr | ht
    · rw [step_terminationFires sys pollInterval _ hr]
      exact (runEvents_of_not_running sys pollInterval post _ (by simp)).1
    · have hs := step_of_not_running sys pollInterval
        (runEvents sys pollInterval pre RunState.start) Event.terminationFires
        (by rw [ht]; simp)
      rw [(runEvents_of_not_running sys pollInterval post _ (by rw [hs.1, ht]; simp)).1,
        hs.1]
      exact ht
  refine ⟨_, Run_of_terminated sys pollInterval _ hphase, by simp, ?_⟩
  simp [errorsIs, GoError.is_self]

/-- C1, amended, on the run of the test: its service does not return before
its context is canceled, the metrics loop starts a tick and sends one
emission, then the termination hook returns. -/
theorem Run_returns_terminated_witness :
    (∀ i, Event.serviceReturns i ∈ [Event.tick, Event.emits] →
      (Event.serviceReturns i).triggers testSystem = false) ∧
    ∃ r, Run testSystem 0 ([Event.tick, Event.emits] ++ Event.terminationFires :: []) = some r ∧
      r.err ≠ none ∧ errorsIs r.err (some ErrTerminated) = true :=
  have h : ∀ i, Event.serviceReturns i ∈ [Event.tick, Event.emits] →
      (Event.serviceReturns i).triggers testSystem = false := by
    intro i hi
    simp at hi
  ⟨h, Run_returns_terminated testSystem 0 [Event.tick, Event.emits] [] h⟩

/-- C2. When a registered service returns the failure `e` before the
termination watcher has fired and before any other service has returned,
`Run` returns `e` itself: the result is not nil, and it satisfies
`errors.Is(result, termination.ErrTerminated)` only if `e` does, which for an
`e` that wraps nothing means that `e` is the sentinel. The `system.run`
timer is then tagged `result:failure`. -/
theorem Run_returns_service_failure {σ : Type} (sys : System σ) (pollInterval : Nat)
    (pre post : List Event) (i : Nat) (task : ServiceTask) (e : GoError)
    (hi : sys.services.get? i = some task) (he : task.failure = some e)
    (hpre : ∀ ev ∈ pre, ev.triggers sys = false) :
    ∃ r, Run sys pollInterval (pre ++ Event.serviceReturns i :: post) = some r ∧
      r.err = some e ∧ r.err ≠ none ∧
      errorsIs r.err (some ErrTerminated) = errorsIs (some e) (some ErrTerminated) ∧
      (errorsIs (some e) (some ErrTerminated) = false →
        errorsIs r.err (some ErrTerminated) = false) ∧
      (∀ id, e = GoError.leaf id →
        (errorsIs r.err (some ErrTerminated) = true ↔ e = ErrTerminated)) ∧
      r.sink.getLast? = some (systemRunCall "result:failure") := by
  have hr : (runEvents sys pollInterval pre RunState.start).phase = Phase.Running :=
    runEvents_phase_of_not_triggers sys pollInterval pre RunState.start hpre
  have hphase := (runEvents_trigger sys pollInterval pre post (Event.serviceReturns i)
    RunState.start (Phase.Failed e) (by simp)
    (step_serviceReturns sys pollInterval _ i task e hr hi he)).1
  refine ⟨_, Run_of_failed sys pollInterval _ e hphase, rfl, by simp, rfl, fun h => h, ?_, ?_⟩
  · intro id hid
    simp [errorsIs, hid, GoError.is]
  · simp

/-- C2 on the test's system with one more service, which fails at once with
an error of its own. -/
theorem Run_returns_service_failure_witness :
    (testSystem.AddService ⟨some (GoError.leaf "boom")⟩).services.get? 1 =
      some ⟨some (GoError.leaf "boom")⟩ ∧
    (∀ ev ∈ [Event.tick], ev.triggers
      (testSystem.AddService ⟨some (GoError.leaf "boom")⟩) = false) ∧
    ∃ r, Run (testSystem.AddService ⟨some (GoError.leaf "boom")⟩) 0
        ([Event.tick] ++ Event.serviceReturns 1 :: [Event.terminationFires]) = some r ∧
      r.err = some (GoError.leaf "boom") ∧ r.err ≠ none ∧
      errorsIs r.err (some ErrTerminated) =
        errorsIs (some (GoError.leaf "boom")) (some ErrTerminated) ∧
      (errorsIs (some (GoError.leaf "boom")) (some ErrTerminated) = false →
        errorsIs r.err (some ErrTerminated) = false) ∧
      (∀ id, GoError.leaf "boom" = GoError.leaf id →
        (errorsIs r.err (some ErrTerminated) = true ↔ GoError.leaf "boom" = ErrTerminated)) ∧
      r.sink.getLast? = some (systemRunCall "result:failure") :=
  ⟨by decide, by decide,
    Run_returns_service_failure (testSystem.AddService ⟨some (GoError.leaf "boom")⟩) 0
      [Event.tick] [Event.terminationFires] 1 ⟨some (GoError.leaf "boom")⟩ (GoError.leaf "boom")
      (by decide) rfl (by decide)⟩

/-- The run of `TestSystem_Run`: the service blocks, the metrics loop polls
the producer, the termination hook returns with the tick still in flight.
`Run` returns the sentinel and the sink holds the four emissions the test
expects, in its order (lines 62-91); it is the same when part of the tick is
sent before the hook returns and part after. -/
theorem Run_testSystem :
    Run testSystem 0 [Event.tick, Event.terminationFires] =
      some { err := some ErrTerminated
             sink :=
              [{ Metric := "gauge", Name := "gauge..key_a", Value := some 1,
                 Tags := ["foo:bar"], Rate := 1 },
               { Metric := "gauge", Name := "gauge..key_b", Value := some 2,
                 Tags := ["baz:qux"], Rate := 1 },
               { Metric := "timer", Name := "worker_loop", Value := none,
                 Tags := ["loop_name:metric-loop", "result:success"], Rate := 1 },
               { Metric := "timer", Name := "system.run", Value := none,
                 Tags := ["result:success"], Rate := 1 }] } ∧
    Run testSystem 0
        [Event.tick, Event.emits, Event.terminationFires, Event.emits, Event.tick] =
      Run testSystem 0 [Event.tick, Event.terminationFires] := by
  decide

/-- C4. A call of `Run` returns exactly when some event of the schedule ends
the race. It has then emitted one timer named `system.run`, with rate 1, as
its last emission: every gauge and `worker_loop` emission of the run comes
before it, those sent before the race ended and those a tick in flight had
left. Its tag follows the event that ended the race: `result:success` when
that was the termination signal, and then the tags are exactly
`result:success`; `result:failure` when it was a service returning a
failure; `result:success` when it was a service returning without error. -/
theorem Run_emits_one_system_run {σ : Type} (sys : System σ) (pollInterval : Nat)
    (schedule : List Event) :
    ((∀ ev ∈ schedule, ev.triggers sys = false) → Run sys pollInterval schedule = none) ∧
    ((∃ ev ∈ schedule, ev.triggers sys = true) →
      ∃ r pre ev post tag, Run sys pollInterval schedule = some r ∧
        schedule = pre ++ ev :: post ∧
        schedule.find? (fun x => x.triggers sys) = some ev ∧
        r.sink = (runEvents sys pollInterval pre RunState.start).sink ++
          (runEvents sys pollInterval pre RunState.start).pending ++
          [{ Metric := "timer", Name := "system.run", Value := none, Tags := [tag],
             Rate := 1 }] ∧
        (∀ m ∈ (runEvents sys pollInterval pre RunState.start).sink ++
            (runEvents sys pollInterval pre RunState.start).pending, m.Name ≠ "system.run") ∧
        (r.sink.filter (fun m => decide (m.Name = "system.run"))).length = 1 ∧
        (ev = Event.terminationFires →
          tag = "result:success" ∧ r.err = some ErrTerminated) ∧
        (∀ i, ev = Event.serviceReturns i →
          ∃ task, sys.services.get? i = some task ∧ r.err = task.failure ∧
            tag = if task.failure.isSome then "result:failure" else "result:success")) := by
  refine ⟨Run_blocked sys pollInterval schedule, ?_⟩
  intro h
  obtain ⟨pre, ev, post, hs, hev, hpre, hfind⟩ := exists_first_trigger sys schedule h
  have hr : (runEvents sys pollInterval pre RunState.start).phase = Phase.Running :=
    runEvents_phase_of_not_triggers sys pollInterval pre RunState.start hpre
  have hclean := runEvents_no_system_run sys pollInterval pre RunState.start
    (by simp [RunState.start])
  have hcount : ∀ tag : String,
      (((runEvents sys pollInterval pre RunState.start).sink ++
        (runEvents sys pollInterval pre RunState.start).pending ++
        [systemRunCall tag]).filter (fun m => decide (m.Name = "system.run"))).length = 1 := by
    intro tag
    have hnil : ((runEvents sys pollInterval pre RunState.start).sink ++
        (runEvents sys pollInterval pre RunState.start).pending).filter
        (fun m => decide (m.Name = "system.run")) = [] := by
      rw [List.filter_eq_nil_iff]
      intro m hm
      simpa using hclean m hm
    rw [List.filter_append, hnil]
    simp [systemRunCall]
  cases ev with
  | tick => simp [Event.triggers] at hev
  | emits => simp [Event.triggers] at hev
  | terminationFires =>
    have ht := runEvents_trigger sys pollInterval pre post Event.terminationFires
      RunState.start Phase.Terminated (by simp) (step_terminationFires sys pollInterval _ hr)
    rw [← hs] at ht
    have hrun := Run_of_terminated sys pollInterval schedule ht.1
    rw [ht.2] at hrun
    refine ⟨_, pre, Event.terminationFires, post, "result:success", hrun, hs, hfind, rfl,
      hclean, hcount _, fun _ => ⟨rfl, rfl⟩, ?_⟩
    intro i hi
    exact absurd hi (by simp)
  | serviceReturns i =>
    simp only [Event.triggers] at hev
    cases hi : sys.services.get? i with
    | none =>
      rw [hi] at hev
      simp at hev
    | some task =>
      cases he : task.failure with
      | some e =>
        have ht := runEvents_trigger sys pollInterval pre post (Event.serviceReturns i)
          RunState.start (Phase.Failed e) (by simp)
          (step_serviceReturns sys pollInterval _ i task e hr hi he)
        rw [← hs] at ht
        have hrun := Run_of_failed sys pollInterval schedule e ht.1
        rw [ht.2] at hrun
        refine ⟨_, pre, Event.serviceReturns i, post, "result:failure", hrun, hs, hfind, rfl,
          hclean, hcount _, fun hx => absurd hx (by simp), ?_⟩
        intro j hj
        have hij : i = j := by simpa using hj
        subst hij
        exact ⟨task, hi, he.symm, by simp [he]⟩
      | none =>
        have ht := runEvents_trigger sys pollInterval pre post (Event.serviceReturns i)
          RunState.start Phase.Finished (by simp)
          (step_serviceReturns_nil sys pollInterval _ i task hr hi he)
        rw [← hs] at ht
        have hrun := Run_of_finished sys pollInterval schedule ht.1
        rw [ht.2] at hrun
        refine ⟨_, pre, Event.serviceReturns i, post, "result:success", hrun, hs, hfind, rfl,
          hclean, hcount _, fun hx => absurd hx (by simp), ?_⟩
        intro j hj
        have hij : i = j := by simpa using hj
        subst hij
        exact ⟨task, hi, he.symm, by simp [he]⟩

end system

end Ex
